import Mathlib

/-!
A verification development for `kubectl-topd.py` (repository `dverzolla/k8s-topd`).

The Python source is shallowly embedded below.  Modelling conventions:

* Strings are processed as `List Char` (obtained via `String.data`); Python's
  `str.strip`/`str.lower` are modelled for ASCII characters (the inputs of
  interest are ASCII Kubernetes quantity strings and CLI column names).
* Python `float` values produced by `float(s)` are modelled as exact decimal
  numbers (`Dec`: an integer mantissa over a power of ten), i.e. real-number
  semantics.  IEEE-754 rounding, overflow to infinity, the literals
  `inf`/`infinity`/`nan`, and underscore digit grouping are outside the model;
  `pyFloatL` treats those spellings as unparsable.  For the inputs examined in
  the theorems below the exact-decimal value and the IEEE value agree.
  Note that where `float(s)` would yield an infinity or NaN inside the
  converters, the subsequent `int(...)` call raises in Python, so folding those
  cases into parse failure preserves the converters' raise/return behaviour.
* A Python function that can raise an exception is embedded as `Except Unit _`;
  `.error ()` marks "some exception propagates out of the function".
* `int(x)` on a float is truncation toward zero, embedded via `Int.tdiv`.
-/

/-! ### Character and list-of-char utilities -/

/-- ASCII decimal digit test (`'0'..'9'`). -/
def isAsciiDigit (c : Char) : Bool := '0' ≤ c && c ≤ '9'

/-- The whitespace characters stripped by Python's `str.strip()` (ASCII part). -/
def isPySpace (c : Char) : Bool :=
  c = ' ' || c = '\t' || c = '\n' || c = '\x0d' || c = '\x0b' || c = '\x0c'

/-- Model of `str.strip()` on a character list. -/
def trimL (cs : List Char) : List Char :=
  ((cs.dropWhile isPySpace).reverse.dropWhile isPySpace).reverse

/-- Model of `str.lower()` (ASCII). -/
def lowerL (cs : List Char) : List Char := cs.map Char.toLower

/-- Numeric value of a list of ASCII digits (most significant first). -/
def natOfDigitsL (cs : List Char) : ℕ :=
  cs.foldl (fun n c => 10 * n + (c.toNat - 48)) 0

/-- Model of `str.endswith(suf)`. -/
def endsWithL (cs suf : List Char) : Bool :=
  decide (cs.reverse.take suf.length = suf.reverse)

/-- Model of `str.startswith(pre)`. -/
def startsWithL (cs pre : List Char) : Bool :=
  decide (cs.take pre.length = pre)

/-- Model of `s[:-n]` (drop the last `n` characters). -/
def dropLastL (cs : List Char) (n : ℕ) : List Char :=
  (cs.reverse.drop n).reverse

/-- Split a character list on `','` (model of `str.split(",")` for a
nonempty separator). -/
def splitOnCommaL : List Char → List (List Char)
  | [] => [[]]
  | c :: rest =>
    if c = ',' then [] :: splitOnCommaL rest
    else
      match splitOnCommaL rest with
      | [] => [[c]]
      | g :: gs => (c :: g) :: gs

/-! ### Exact decimals: the model of Python float values

A `Dec` denotes the rational number `num / 10 ^ e`.  All float values arising
in the two quantity converters are decimal, so this representation is exact. -/

structure Dec where
  num : Int
  e : ℕ
deriving DecidableEq, Repr

namespace Dec

/-- Multiply by an integer. -/
def scale (d : Dec) (m : Int) : Dec := ⟨d.num * m, d.e⟩

/-- Multiply by `10 ^ k`. -/
def mulPow10 (d : Dec) (k : ℕ) : Dec := ⟨d.num * 10 ^ k, d.e⟩

/-- Divide by `10 ^ k`. -/
def divPow10 (d : Dec) (k : ℕ) : Dec := ⟨d.num, d.e + k⟩

/-- Negation. -/
def neg (d : Dec) : Dec := ⟨-d.num, d.e⟩

/-- Model of Python `int(x)` on a float value: truncation toward zero. -/
def trunc (d : Dec) : Int := d.num.tdiv (10 ^ d.e : ℕ)

/-- The rational value denoted by a `Dec`. -/
def val (d : Dec) : ℚ := (d.num : ℚ) / (10 : ℚ) ^ d.e

end Dec

/-! ### Model of Python `float(s)` -/

/-- Leading run of ASCII digits and the remainder. -/
def spanDigits (cs : List Char) : List Char × List Char :=
  (cs.takeWhile isAsciiDigit, cs.dropWhile isAsciiDigit)

/-- Parse an optional exponent tail (`e`/`E`, optional sign, digits) applied
to an already-parsed mantissa; anything else fails. -/
def parseExpTail (cs : List Char) (mant : Dec) : Option Dec :=
  match cs with
  | [] => some mant
  | c :: rest =>
    if c = 'e' ∨ c = 'E' then
      let (negExp, rest2) :=
        match rest with
        | '+' :: r => (false, r)
        | '-' :: r => (true, r)
        | r => (false, r)
      let (ds, rest3) := spanDigits rest2
      if ds = [] ∨ rest3 ≠ [] then none
      else if negExp then some (mant.divPow10 (natOfDigitsL ds))
      else some (mant.mulPow10 (natOfDigitsL ds))
    else none

/-- Unsigned float body: digits, optional `'.'` with optional fraction digits
(at least one digit overall), optional exponent. -/
def pyFloatCore (cs : List Char) : Option Dec :=
  let (ip, r1) := spanDigits cs
  match r1 with
  | '.' :: r2 =>
    let (fp, r3) := spanDigits r2
    if ip = [] ∧ fp = [] then none
    else parseExpTail r3 ⟨(natOfDigitsL (ip ++ fp) : ℤ), fp.length⟩
  | r =>
    if ip = [] then none else parseExpTail r ⟨(natOfDigitsL ip : ℤ), 0⟩

/-- Model of Python `float(s)`: strip whitespace, optional sign, finite
decimal literal (see the module comment for the model's scope). -/
def pyFloatL (cs : List Char) : Option Dec :=
  match trimL cs with
  | [] => none
  | c :: r =>
    if c = '+' then pyFloatCore r
    else if c = '-' then (pyFloatCore r).map Dec.neg
    else pyFloatCore (c :: r)

/-! ### The quantity converters (`kubectl-topd.py` lines 59-115) -/

/-- The `_BIN` table: binary suffixes with their byte multipliers,
in source (= Python dict iteration) order. -/
def binTable : List (String × Int) :=
  [("Ki", 1024), ("Mi", 1024 ^ 2), ("Gi", 1024 ^ 3),
   ("Ti", 1024 ^ 4), ("Pi", 1024 ^ 5), ("Ei", 1024 ^ 6)]

/-- First `_BIN` entry whose suffix ends the string (the loop
`for suf, mult in _BIN.items(): if q.endswith(suf)`). -/
def binMatch (t : List Char) : Option (String × Int) :=
  binTable.find? (fun p => endsWithL t p.1.data)

/-- Membership of a char in the regex class `[kKMGTPE]`. -/
def isDecSuffixChar (c : Char) : Bool :=
  c = 'k' || c = 'K' || c = 'M' || c = 'G' || c = 'T' || c = 'P' || c = 'E'

/-- Membership of a char in the regex class `[0-9.]`. -/
def isNumDot (c : Char) : Bool := isAsciiDigit c || c = '.'

/-- Model of `re.match(r"^([0-9.]+)([kKMGTPE]?)$", q)`: the whole string is a
nonempty run of `[0-9.]` optionally followed by one `[kKMGTPE]` character.
Returns the two capture groups. -/
def memRegexSplit (t : List Char) : Option (List Char × Option Char) :=
  let body := t.takeWhile isNumDot
  let rest := t.dropWhile isNumDot
  if body = [] then none
  else
    match rest with
    | [] => some (body, none)
    | [c] => if isDecSuffixChar c then some (body, some c) else none
    | _ => none

/-- The `_DEC` multiplier reachable from the memory regex (`k,K → 1e3`,
`M → 1e6`, …, `E → 1e18`; no suffix → `1.0`; `_DEC.get(suf, 1.0)` default). -/
def decMultPow10 : Option Char → ℕ
  | none => 0
  | some c =>
    if c = 'k' ∨ c = 'K' then 3
    else if c = 'M' then 6
    else if c = 'G' then 9
    else if c = 'T' then 12
    else if c = 'P' then 15
    else if c = 'E' then 18
    else 0

/-- Body of `parse_memory_to_bytes` after the initial
`q = str(q).strip(); if not q: return 0` (lines 82-84). -/
def memParse (t : List Char) : Except Unit Int :=
  if t = [] then .ok 0
  else
    match binMatch t with
    | some (suf, mult) =>
      let pre := dropLastL t suf.data.length
      match (if pre = [] then some ⟨0, 0⟩ else pyFloatL pre) with
      | some base => .ok (Dec.trunc (base.scale mult))
      | none => .error ()
    | none =>
      match memRegexSplit t with
      | some (body, suf) =>
        match pyFloatL body with
        | some v => .ok (Dec.trunc (v.mulPow10 (decMultPow10 suf)))
        | none => .error ()
      | none =>
        if t.all isAsciiDigit then .ok (natOfDigitsL t)
        else
          match pyFloatL t with
          | some v => .ok v.trunc
          | none => .ok 0

/-- Embedding of `parse_memory_to_bytes` (lines 81-100).  `.error ()` marks a
propagating exception (an unguarded `float(...)` `ValueError`). -/
def parse_memory_to_bytes (q : String) : Except Unit Int :=
  memParse (trimL q.data)

/-- Body of `parse_cpu_to_millicores` after the initial strip/empty check
(lines 103-105). -/
def cpuParse (t : List Char) : Except Unit Int :=
  if t = [] then .ok 0
  else if endsWithL t ['m'] then
    match pyFloatL (dropLastL t 1) with
    | some v => .ok v.trunc
    | none => .error ()
  else if endsWithL t ['n'] then
    let pre := dropLastL t 1
    match (if pre = [] then some ⟨0, 0⟩ else pyFloatL pre) with
    | some n => .ok (Dec.trunc ((n.scale 1000).divPow10 9))
    | none => .error ()
  else
    match pyFloatL t with
    | some c => .ok (Dec.trunc (c.scale 1000))
    | none => .ok 0

/-- Embedding of `parse_cpu_to_millicores` (lines 102-115). -/
def parse_cpu_to_millicores (q : String) : Except Unit Int :=
  cpuParse (trimL q.data)

deriving instance DecidableEq for Except

/-! ### The order-by parser (`kubectl-topd.py` lines 174-235) -/

/-- Embedding of `_norm` (line 174): lowercase, then keep only `[a-z0-9%]`
characters (model of `re.sub(r"[^a-z0-9%]+", "", s.lower())`, ASCII). -/
def normL (cs : List Char) : List Char :=
  (lowerL cs).filter (fun c => isAsciiDigit c || ('a' ≤ c && c ≤ 'z') || c = '%')

/-- `_norm` lifted to `String`. -/
def normS (s : String) : String := String.mk (normL s.data)

/-- Python-dict insertion: an existing key keeps its position and gets the new
value, a fresh key is appended. -/
def pyDictUpd (d : List (String × String)) (k v : String) : List (String × String) :=
  if d.any (fun p => decide (p.1 = k)) then
    d.map (fun p => if p.1 = k then (p.1, v) else p)
  else d ++ [(k, v)]

/-- Embedding of `_BUILTIN_COL_MAP` (lines 177-197): keys are `_norm`ed alias
spellings, in source order, with Python-dict duplicate-key semantics (the
spellings `cpu(cores)` and `cpucores` normalize to the same key). -/
def builtinColMap : List (String × String) :=
  [ (normS "name", "name"),
    (normS "cpu(cores)", "cpu_m"),
    (normS "cpucores", "cpu_m"),
    (normS "cpu", "cpu_m"),
    (normS "cpu%", "cpu_perc"),
    (normS "memory(bytes)", "mem_bytes"),
    (normS "memory", "mem_bytes"),
    (normS "mem", "mem_bytes"),
    (normS "memory%", "mem_perc"),
    (normS "mem%", "mem_perc"),
    (normS "disk usage%", "disk_perc"),
    (normS "disk%", "disk_perc"),
    (normS "disk", "disk_perc")
  ].foldl (fun d p => pyDictUpd d p.1 p.2) []

/-- Python `dict.get` on the association list. -/
def dictGet (d : List (String × String)) (k : String) : Option String :=
  (d.find? (fun p => decide (p.1 = k))).map (fun p => p.2)

/-- Whether a character list contains a newline. -/
def hasNL (cs : List Char) : Bool := cs.any (fun c => c = '\n')

/-- Model of `re.match(r"^(.*?)(?::(asc|desc))?$", item, re.IGNORECASE)`.
Without `re.DOTALL`, `.` does not match a newline, and `$` anchors only at
the end of the string or before one final trailing newline, so the match
FAILS (returns `None`) exactly when the item contains a newline other than a
single trailing one.  On success, a case-insensitive trailing `:asc`/`:desc`
is split off as the direction (`true` = descending), default ascending, and
`group(1)` excludes a trailing newline.  (`parse_order_by` strips each item
first, so any newline that reaches this point is interior.) -/
def splitDirL (item : List Char) : Option (List Char × Bool) :=
  let core := if endsWithL item ['\n'] then dropLastL item 1 else item
  if hasNL core then none
  else if endsWithL (lowerL core) ":desc".data then some (dropLastL core 5, true)
  else if endsWithL (lowerL core) ":asc".data then some (dropLastL core 4, false)
  else some (core, false)

/-- Resolution of one (already stripped, nonempty) order-by item, as in the
loop body of `parse_order_by` (lines 209-233).  When the direction regex does
not match, `m` is `None` and `m.group(1)` raises `AttributeError`, modelled
as `.error ()`; `.ok none` means the item is silently dropped. -/
def resolveItem (labels : List String) (item : List Char) :
    Except Unit (Option (String × Bool × Option String)) :=
  match splitDirL item with
  | none => .error ()
  | some (rawCol, rev) =>
    let col := trimL rawCol
    let ncol := normL col
    match dictGet builtinColMap (String.mk ncol) with
    | some key => .ok (some (key, rev, none))
    | none =>
      match labels.find? (fun lk => decide (normL lk.data = ncol) || decide (lk.data = col)) with
      | some lk => .ok (some ("label", rev, some lk))
      | none =>
        match builtinColMap.find? (fun p => startsWithL p.1.data ncol || startsWithL ncol p.1.data) with
        | some p => .ok (some (p.2, rev, none))
        | none => .ok none

/-- The stripped, nonempty items of an order-by spec, in input order. -/
def orderItemsOf (spec : String) : List (List Char) :=
  ((splitOnCommaL spec.data).map trimL).filter (fun i => decide (i ≠ []))

/-- The `for raw in spec.split(",")` loop of `parse_order_by`: items resolve
in order, dropped items contribute nothing, and an `AttributeError` from any
item aborts the whole call. -/
def parseOrderLoop (labels : List String) :
    List (List Char) → Except Unit (List (String × Bool × Option String))
  | [] => .ok []
  | item :: rest =>
    match resolveItem labels item with
    | .error e => .error e
    | .ok none => parseOrderLoop labels rest
    | .ok (some t) =>
      match parseOrderLoop labels rest with
      | .error e => .error e
      | .ok ts => .ok (t :: ts)

/-- Embedding of `parse_order_by` (lines 199-235).  A `None` spec in Python is
modelled by the empty string (both are falsy in `if not spec`); an uncaught
`AttributeError` from the direction regex surfaces as `.error ()`. -/
def parse_order_by (spec : String) (labels : List String) :
    Except Unit (List (String × Bool × Option String)) :=
  if spec = "" then .ok []
  else parseOrderLoop labels (orderItemsOf spec)

/-! ### A second definition of the order-by parser, following the spec's words
(§4.1), for comparison with the code's `parse_order_by`. -/

/-- First defined value in a list of candidate rule results. -/
def firstSome {α : Type} : List (Option α) → Option α
  | [] => none
  | some a :: _ => some a
  | none :: os => firstSome os

/-- Spec rule (a): "exact match (case/punctuation-normalized) against a fixed
builtin alias table". -/
def specRuleExact (ncol : List Char) : Option (String × Option String) :=
  (dictGet builtinColMap (String.mk ncol)).map (fun k => (k, none))

/-- Spec rule (b): "exact match (normalized, or raw) against a requested label
key". -/
def specRuleLabel (labels : List String) (col ncol : List Char) :
    Option (String × Option String) :=
  (labels.find? (fun lk => decide (normL lk.data = ncol) || decide (lk.data = col))).map
    (fun lk => ("label", some lk))

/-- Spec rule (c): "fallback — first builtin alias where one string is a
prefix of the other, in table iteration order (first match wins)". -/
def specRuleFallback (ncol : List Char) : Option (String × Option String) :=
  (builtinColMap.find? (fun p => startsWithL p.1.data ncol || startsWithL ncol p.1.data)).map
    (fun p => (p.2, none))

/-- Direction parsing as the spec words it: each item optionally ends in a
case-insensitive `:asc`/`:desc`, default ascending.  Total — the spec
mentions no failure. -/
def specSplitDir (item : List Char) : List Char × Bool :=
  if endsWithL (lowerL item) ":desc".data then (dropLastL item 5, true)
  else if endsWithL (lowerL item) ":asc".data then (dropLastL item 4, false)
  else (item, false)

/-- Resolution of one item per the spec's words: the first applicable of
rules (a), (b), (c), with the parsed direction attached. -/
def specResolveOne (labels : List String) (item : List Char) :
    Option (String × Bool × Option String) :=
  let ds := specSplitDir item
  let col := trimL ds.1
  let ncol := normL col
  (firstSome [specRuleExact ncol, specRuleLabel labels col ncol,
              specRuleFallback ncol]).map
    (fun r => (r.1, ds.2, r.2))

/-- Definition following the spec's words (§4.1): split on commas, parse an
optional case-insensitive `:asc`/`:desc` direction (default ascending),
resolve each column name by the first applicable of rules (a), (b), (c), and
silently drop unresolvable items, preserving input order.  (Whitespace
stripping around items is an unspecified detail taken from the code.) -/
def parse_order_by_spec_model (spec : String) (labels : List String) :
    List (String × Bool × Option String) :=
  if spec = "" then []
  else (orderItemsOf spec).filterMap (specResolveOne labels)

/-! ### Stable sorting (model of Python `list.sort`)

Python's `list.sort` is a stable sort; a stable sort with respect to a total
preorder is unique, so it is modelled by stable insertion sort. -/

/-- Stable insertion of `x` (originally positioned before every element of the
list) into an already sorted list: `x` goes in front of the first element `y`
with `le x y`. -/
def insertSorted {α : Type} (le : α → α → Bool) (x : α) : List α → List α
  | [] => [x]
  | y :: ys => if le x y then x :: y :: ys else y :: insertSorted le x ys

/-- Stable insertion sort. -/
def isort {α : Type} (le : α → α → Bool) : List α → List α
  | [] => []
  | x :: xs => insertSorted le x (isort le xs)

/-- Code-point lexicographic order on character lists (Python string `<=`). -/
def lexLe : List Char → List Char → Bool
  | [], _ => true
  | _ :: _, [] => false
  | a :: as, b :: bs =>
    if a.toNat < b.toNat then true
    else if b.toNat < a.toNat then false
    else lexLe as bs

/-- String comparison used by a sort pass: ascending `a ≤ b`, or the stable
descending comparison (`reverse=True`) `b ≤ a`. -/
def strPassLe (rev : Bool) (a b : String) : Bool :=
  if rev then lexLe b.data a.data else lexLe a.data b.data

/-! ### Rows and `sort_rows_in_place` (`kubectl-topd.py` lines 237-249) -/

/-- A row as assembled by `main` (lines 383-391): a dict with the node name,
five float-valued metric fields and a label dict.  A metric field absent from
the dict is `none` (`r.get(key, None)`); a label value of Python `None` is
modelled as `some (lk, none)`. -/
structure Row where
  name : String
  cpu_m : Option ℚ
  cpu_perc : Option ℚ
  mem_bytes : Option ℚ
  mem_perc : Option ℚ
  disk_perc : Option ℚ
  labels : List (String × Option String)
deriving DecidableEq, Repr

/-- `r.get(key, None)` for the numeric metric columns. -/
def numFieldGet (r : Row) (key : String) : Option ℚ :=
  if key = "cpu_m" then r.cpu_m
  else if key = "cpu_perc" then r.cpu_perc
  else if key = "mem_bytes" then r.mem_bytes
  else if key = "mem_perc" then r.mem_perc
  else if key = "disk_perc" then r.disk_perc
  else none

/-- The sort-key codomain for numeric passes: a float value or one of the two
infinities substituted for a missing value. -/
inductive SKey where
  | ninf : SKey
  | fin : ℚ → SKey
  | pinf : SKey
deriving DecidableEq, Repr

/-- Order on `SKey` (float order with `-inf` at the bottom, `+inf` at the
top). -/
def skLe : SKey → SKey → Bool
  | .ninf, _ => true
  | _, .pinf => true
  | .pinf, _ => false
  | _, .ninf => false
  | .fin a, .fin b => decide (a ≤ b)

/-- The key function `_k` of `sort_rows_in_place` (lines 244-248): a missing
value becomes `-inf` when ascending and `+inf` when descending. -/
def numSortKey (rev : Bool) (key : String) (r : Row) : SKey :=
  match numFieldGet r key with
  | none => if rev then .pinf else .ninf
  | some v => .fin v

/-- `r["labels"].get(label_key, "") or ""` (line 242): a missing label key, a
`None` value and an empty value all sort as `""`.  (`label_key` is an
`Option` because the third tuple component is `None` for builtin columns.) -/
def labelSortVal (r : Row) (lk : Option String) : String :=
  match lk with
  | none => ""
  | some k =>
    match r.labels.lookup k with
    | some (some v) => v
    | _ => ""

/-- The comparison a single sort pass uses between two rows, including the
stable `reverse=True` handling. -/
def passLe (t : String × Bool × Option String) (a b : Row) : Bool :=
  if t.1 = "label" then strPassLe t.2.1 (labelSortVal a t.2.2) (labelSortVal b t.2.2)
  else if t.1 = "name" then strPassLe t.2.1 a.name b.name
  else
    if t.2.1 then skLe (numSortKey t.2.1 t.1 b) (numSortKey t.2.1 t.1 a)
    else skLe (numSortKey t.2.1 t.1 a) (numSortKey t.2.1 t.1 b)

/-- One `rows.sort(key=..., reverse=...)` call. -/
def sortPass (rows : List Row) (t : String × Bool × Option String) : List Row :=
  isort (passLe t) rows

/-- Embedding of `sort_rows_in_place` (lines 237-249): one stable sort per
spec entry, iterating the spec back-to-front; an empty spec returns
immediately. -/
def sort_rows_in_place (rows : List Row) (specs : List (String × Bool × Option String)) :
    List Row :=
  if specs = [] then rows
  else (specs.reverse).foldl sortPass rows

/-! ### Disk usage (`kubectl-topd.py` lines 131-138 and 358-370) -/

/-- Embedding of `fetch_node_disk_usage` (lines 131-138).  The argument models
the outcome of the HTTP request plus JSON key lookups
`data["node"]["fs"]["usedBytes"]` / `["capacityBytes"]`: `none` is any failure
(HTTP error status, timeout, malformed body, missing key — each raises in
Python), `some (used, cap)` a successful lookup of the two numbers. -/
def fetch_node_disk_usage (resp : Option (ℚ × ℚ)) : Except Unit ℚ :=
  match resp with
  | none => .error ()
  | some (used, cap) =>
    if cap = 0 then .ok 0
    else .ok (used / cap * 100)

/-- The value recorded for one node by the fan-out loop (lines 365-370):
`float(fut.result())` on success, `0.0` on any exception. -/
def diskResultValue (resp : Option (ℚ × ℚ)) : ℚ :=
  match fetch_node_disk_usage resp with
  | .ok v => v
  | .error _ => 0

/-- The `disk_usage` mapping built by `main` (lines 359-370): one entry per
node name.  (The worker pool fills a dict keyed by node name, so completion
order does not affect the mapping; it is modelled per name.) -/
def diskUsageMap (names : List String) (resp : String → Option (ℚ × ℚ)) :
    List (String × ℚ) :=
  names.map (fun n => (n, diskResultValue (resp n)))

/-! ### Row assembly (`kubectl-topd.py` lines 373-391) -/

/-- Python `x or d` for an integer `x` (`0` is the only falsy int). -/
def pyOrInt (x d : Int) : Int := if x = 0 then d else x

/-- Assembly of one row (lines 374-391).  `cpuCap?`/`memCap?` model
`cpu_capacity_m.get(name, 0)` etc. as the looked-up value (`none` = node
absent from the capacity map); a capacity of `0` is replaced by `1` via
`... or 1` before dividing. -/
def buildRow (name : String) (cpuUsed? cpuCap? memUsed? memCap? : Option Int)
    (disk? : Option ℚ) (labels : List (String × Option String)) : Row :=
  let used_m := cpuUsed?.getD 0
  let cap_m := pyOrInt (cpuCap?.getD 0) 1
  let mem_used := memUsed?.getD 0
  let mem_cap := pyOrInt (memCap?.getD 0) 1
  { name := name
    cpu_m := some (used_m : ℚ)
    cpu_perc := some ((used_m : ℚ) / (cap_m : ℚ) * 100)
    mem_bytes := some (mem_used : ℚ)
    mem_perc := some ((mem_used : ℚ) / (mem_cap : ℚ) * 100)
    disk_perc := some (disk?.getD 0)
    labels := labels }

/-! ### The output/connectivity order of `main` (lines 20-57 and 300-316) -/

/-- Left-justify to width `w` (Python `f"{s:<{w}}"`; no truncation). -/
def ljust (s : String) (w : ℕ) : String :=
  s ++ String.mk (List.replicate (w - s.length) ' ')

/-- Model of `str.upper()` (ASCII). -/
def upperS (s : String) : String := String.mk (s.data.map Char.toUpper)

/-- The header row printed by `main` (lines 300-311). -/
def headerLine (requestedLabels : List String) : String :=
  String.intercalate " "
    ([ljust "NAME" 30, ljust "CPU(cores)" 12, ljust "CPU%" 6,
      ljust "MEMORY(bytes)" 14, ljust "MEMORY%" 10, ljust "DISK USAGE%" 12] ++
     requestedLabels.map (fun l => ljust (upperS l) 15))

/-- Observable events of a run of `main`, in program order. -/
inductive MainEvent where
  | out : String → MainEvent
  | connResolved : String → MainEvent
  | fatal : String → MainEvent
deriving DecidableEq, Repr

/-- Outcome of `start_kubectl_proxy` (lines 20-57): if no
"Starting to serve on 127.0.0.1:PORT" line shows up within the poll window,
a `RuntimeError` carrying the subprocess output is raised; otherwise the local
base URL is returned. -/
def start_kubectl_proxy (port? : Option ℕ) (leftover : String) : Except String String :=
  match port? with
  | some port => .ok ("http://127.0.0.1:" ++ toString port)
  | none =>
    .error ("Failed to start kubectl proxy. Output so far:\n" ++
      (if leftover = "" then "(no output)" else leftover))

/-- Python `str.rstrip("/")`. -/
def rstripSlash (s : String) : String :=
  String.mk ((s.data.reverse.dropWhile (fun c => c = '/')).reverse)

/-- Event trace of `main` (lines 300-320) up to connectivity resolution:
the header row is printed (line 311), then the base URL is resolved (lines
313-316) — from `--proxy-url` if given, else by spawning the proxy.  An
uncaught `RuntimeError` from `start_kubectl_proxy` terminates the program with
a traceback and a non-zero exit status, modelled as a final `fatal` event.
`rest` abstracts the remainder of the run (node listing onwards, lines
318-409), which is only reached once connectivity is resolved. -/
def mainScript (requestedLabels : List String) (proxyUrl? : Option String)
    (proxyRes : Except String String) (rest : String → List MainEvent) :
    List MainEvent :=
  MainEvent.out (headerLine requestedLabels) ::
    (match proxyUrl? with
     | some u => MainEvent.connResolved (rstripSlash u) :: rest (rstripSlash u)
     | none =>
       match proxyRes with
       | .ok base => MainEvent.connResolved base :: rest base
       | .error e => [MainEvent.fatal e])

/-- Test of the claim "aborts before producing any output": no `out` event may
precede the first connectivity-resolution (or abort) event. -/
def noOutputBeforeConn (evs : List MainEvent) : Bool :=
  (evs.takeWhile (fun e =>
    match e with
    | .connResolved _ => false
    | .fatal _ => false
    | .out _ => true)).all (fun e =>
      match e with
      | .out _ => false
      | _ => true)

/-- The ten ASCII digit characters. -/
def digitChars : List Char := ['0', '1', '2', '3', '4', '5', '6', '7', '8', '9']

/-- Condition under which `memParse` propagates an exception: a matched binary
suffix with a nonempty prefix that is not a valid float, or a regex match
whose numeric group is not a valid float (e.g. `"1.2.3"`). -/
def memRaisesT (t : List Char) : Bool :=
  if t = [] then false
  else
    match binMatch t with
    | some (suf, _) =>
      decide (dropLastL t suf.data.length ≠ []) &&
        decide (pyFloatL (dropLastL t suf.data.length) = none)
    | none =>
      match memRegexSplit t with
      | some (body, _) => decide (pyFloatL body = none)
      | none => false

/-- Condition under which `cpuParse` propagates an exception: a trailing `m`
whose prefix (possibly empty) is not a valid float, or a trailing `n` with a
nonempty prefix that is not a valid float. -/
def cpuRaisesT (t : List Char) : Bool :=
  if t = [] then false
  else if endsWithL t ['m'] then decide (pyFloatL (dropLastL t 1) = none)
  else if endsWithL t ['n'] then
    decide (dropLastL t 1 ≠ []) && decide (pyFloatL (dropLastL t 1) = none)
  else false

/-- The per-node disk value the spec describes: `used/cap*100`, `0` when the
capacity is zero, `0` on any failure. -/
def diskExpected (resp : Option (ℚ × ℚ)) : ℚ :=
  match resp with
  | none => 0
  | some (used, cap) => if cap = 0 then 0 else used / cap * 100

/-- Agreement of two rows on every sort key of a spec list. -/
def keyEqOn (specs : List (String × Bool × Option String)) (a b : Row) : Prop :=
  ∀ t ∈ specs,
    if t.1 = "label" then labelSortVal a t.2.2 = labelSortVal b t.2.2
    else if t.1 = "name" then a.name = b.name
    else numFieldGet a t.1 = numFieldGet b t.1

/-! ### A definition of the memory parser following the spec's words (§4.4) -/

/-- The decimal suffix set as the spec lists it: `n,u,m,k,K,M,G,T,P,E`. -/
def specDecSuffixChar (c : Char) : Bool :=
  c = 'n' || c = 'u' || c = 'm' || c = 'k' || c = 'K' || c = 'M' ||
  c = 'G' || c = 'T' || c = 'P' || c = 'E'

/-- Application of a decimal SI multiplier per the spec's suffix list
(`n → 1e-9`, `u → 1e-6`, `m → 1e-3`, `k/K → 1e3`, …, `E → 1e18`). -/
def specDecApply (v : Dec) : Option Char → Dec
  | none => v
  | some c =>
    if c = 'n' then v.divPow10 9
    else if c = 'u' then v.divPow10 6
    else if c = 'm' then v.divPow10 3
    else v.mulPow10 (decMultPow10 (some c))

/-- The spec's regex: numeric prefix plus one optional suffix drawn from the
full decimal list `n,u,m,k,K,M,G,T,P,E`. -/
def specMemRegexSplit (t : List Char) : Option (List Char × Option Char) :=
  let body := t.takeWhile isNumDot
  let rest := t.dropWhile isNumDot
  if body = [] then none
  else
    match rest with
    | [] => some (body, none)
    | [c] => if specDecSuffixChar c then some (body, some c) else none
    | _ => none

/-- Definition following the spec's words (§4.4, memory quantities): binary
suffixes (base-1024) tried first, then decimal SI-style suffixes
`n,u,m,k,K,M,G,T,P,E` applied as multipliers via a regex on a numeric prefix
plus suffix, then a plain integer/float parse; unparsable input yields 0 and
nothing raises.  For comparison with the code's `parse_memory_to_bytes`. -/
def parse_memory_spec_model (q : String) : Int :=
  let t := trimL q.data
  if t = [] then 0
  else
    match binMatch t with
    | some (suf, mult) =>
      let pre := dropLastL t suf.data.length
      match (if pre = [] then some ⟨0, 0⟩ else pyFloatL pre) with
      | some base => (base.scale mult).trunc
      | none => 0
    | none =>
      match specMemRegexSplit t with
      | some (body, suf) =>
        match pyFloatL body with
        | some v => (specDecApply v suf).trunc
        | none => 0
      | none =>
        match pyFloatL t with
        | some v => v.trunc
        | none => 0

/-! ### Concrete fixtures used by witnesses and counterexamples -/

/-- A row whose `cpu_m` entry is present. -/
def rowPresent : Row := ⟨"a", some 5, none, none, none, none, []⟩

/-- A row whose `cpu_m` entry is missing. -/
def rowMissing : Row := ⟨"b", none, none, none, none, none, []⟩

/-- A stats-fetch outcome: node `"a"` fails, node `"b"` reports 50 of 100
bytes used. -/
def diskRespW : String → Option (ℚ × ℚ) :=
  fun s => if s = "a" then none else some (50, 100)

/-! ### Lemmas about stable insertion sort -/

theorem mem_insertSorted {α : Type} (le : α → α → Bool) (x z : α) :
    ∀ l : List α, z ∈ insertSorted le x l ↔ z = x ∨ z ∈ l
  | [] => by simp [insertSorted]
  | y :: ys => by
    simp only [insertSorted]
    split
    · simp [List.mem_cons]
    · simp only [List.mem_cons, mem_insertSorted le x z ys]
      tauto

theorem insertSorted_pairwise {α : Type} (le : α → α → Bool)
    (htot : ∀ a b, le a b = true ∨ le b a = true)
    (htrans : ∀ a b c, le a b = true → le b c = true → le a c = true) (x : α) :
    ∀ l : List α, l.Pairwise (fun a b => le a b = true) →
      (insertSorted le x l).Pairwise (fun a b => le a b = true)
  | [], _ => by simp [insertSorted]
  | y :: ys, h => by
    rcases List.pairwise_cons.mp h with ⟨hy, hys⟩
    by_cases hxy : le x y = true
    · simp only [insertSorted, if_pos hxy]
      refine List.pairwise_cons.mpr ⟨?_, h⟩
      intro z hz
      rcases List.mem_cons.mp hz with rfl | hz'
      · exact hxy
      · exact htrans x y z hxy (hy z hz')
    · simp only [insertSorted, if_neg hxy]
      refine List.pairwise_cons.mpr
        ⟨?_, insertSorted_pairwise le htot htrans x ys hys⟩
      intro z hz
      rcases (mem_insertSorted le x z ys).mp hz with hzx | hz'
      · rw [hzx]
        rcases htot x y with h' | h'
        · exact absurd h' hxy
        · exact h'
      · exact hy z hz'

theorem isort_pairwise {α : Type} (le : α → α → Bool)
    (htot : ∀ a b, le a b = true ∨ le b a = true)
    (htrans : ∀ a b c, le a b = true → le b c = true → le a c = true) :
    ∀ l : List α, (isort le l).Pairwise (fun a b => le a b = true)
  | [] => by simp [isort]
  | x :: xs =>
    insertSorted_pairwise le htot htrans x (isort le xs)
      (isort_pairwise le htot htrans xs)

theorem filter_insertSorted_pos {α : Type} (le : α → α → Bool) (p : α → Bool)
    (x : α) (hx : p x = true) (hle : ∀ z, p z = true → le x z = true) :
    ∀ l : List α, (insertSorted le x l).filter p = x :: l.filter p
  | [] => by simp [insertSorted, hx]
  | y :: ys => by
    simp only [insertSorted]
    split
    · simp [List.filter_cons, hx]
    · rename_i hxy
      by_cases hy : p y = true
      · exact absurd (hle y hy) hxy
      · have hy' : p y = false := by
          cases hpy : p y
          · rfl
          · exact absurd hpy hy
        simp [List.filter_cons, hy', filter_insertSorted_pos le p x hx hle ys]

theorem filter_insertSorted_neg {α : Type} (le : α → α → Bool) (p : α → Bool)
    (x : α) (hx : p x = false) :
    ∀ l : List α, (insertSorted le x l).filter p = l.filter p
  | [] => by simp [insertSorted, hx]
  | y :: ys => by
    simp only [insertSorted]
    split
    · simp [List.filter_cons, hx]
    · by_cases hy : p y = true <;>
        simp [List.filter_cons, hy, filter_insertSorted_neg le p x hx ys]

theorem isort_filter_stable {α : Type} (le : α → α → Bool) (p : α → Bool)
    (hp : ∀ a b, p a = true → p b = true → le a b = true) :
    ∀ l : List α, (isort le l).filter p = l.filter p
  | [] => rfl
  | x :: xs => by
    simp only [isort]
    by_cases hx : p x = true
    · rw [filter_insertSorted_pos le p x hx (fun z hz => hp x z hx hz),
        isort_filter_stable le p hp xs]
      simp [List.filter_cons, hx]
    · have hx' : p x = false := by
        cases hpx : p x
        · rfl
        · exact absurd hpx hx
      rw [filter_insertSorted_neg le p x hx', isort_filter_stable le p hp xs]
      simp [List.filter_cons, hx']

/-! ### Lemmas about the comparison functions -/

theorem lexLe_refl : ∀ l : List Char, lexLe l l = true
  | [] => rfl
  | c :: cs => by
    simp only [lexLe, lt_irrefl, if_false, lexLe_refl cs]

theorem lexLe_total : ∀ a b : List Char, lexLe a b = true ∨ lexLe b a = true
  | [], _ => Or.inl rfl
  | _ :: _, [] => Or.inr rfl
  | a :: as, b :: bs => by
    simp only [lexLe]
    rcases Nat.lt_trichotomy a.toNat b.toNat with h | h | h
    · left
      rw [if_pos h]
    · have h1 : ¬a.toNat < b.toNat := by omega
      have h2 : ¬b.toNat < a.toNat := by omega
      rw [if_neg h1, if_neg h2, if_neg h2, if_neg h1]
      exact lexLe_total as bs
    · right
      rw [if_pos h]

theorem lexLe_trans :
    ∀ a b c : List Char, lexLe a b = true → lexLe b c = true → lexLe a c = true
  | [], _, _, _, _ => rfl
  | _ :: _, [], _, h, _ => by simp [lexLe] at h
  | _ :: _, _ :: _, [], _, h => by simp [lexLe] at h
  | a :: as, b :: bs, c :: cs, h1, h2 => by
    simp only [lexLe] at h1 h2 ⊢
    by_cases hab : a.toNat < b.toNat
    · by_cases hbc : b.toNat < c.toNat
      · rw [if_pos (by omega : a.toNat < c.toNat)]
      · rw [if_neg hbc] at h2
        by_cases hcb : c.toNat < b.toNat
        · rw [if_pos hcb] at h2
          simp at h2
        · have hbceq : b.toNat = c.toNat := by omega
          rw [if_pos (by omega : a.toNat < c.toNat)]
    · rw [if_neg hab] at h1
      by_cases hba : b.toNat < a.toNat
      · rw [if_pos hba] at h1
        simp at h1
      · rw [if_neg hba] at h1
        by_cases hbc : b.toNat < c.toNat
        · rw [if_pos (by omega : a.toNat < c.toNat)]
        · rw [if_neg hbc] at h2
          by_cases hcb : c.toNat < b.toNat
          · rw [if_pos hcb] at h2
            simp at h2
          · rw [if_neg hcb] at h2
            rw [if_neg (by omega : ¬a.toNat < c.toNat),
              if_neg (by omega : ¬c.toNat < a.toNat)]
            exact lexLe_trans as bs cs h1 h2

theorem skLe_refl (x : SKey) : skLe x x = true := by
  cases x <;> simp [skLe]

theorem skLe_total (x y : SKey) : skLe x y = true ∨ skLe y x = true := by
  cases x <;> cases y <;> simp [skLe] <;> exact le_total _ _

theorem skLe_trans (x y z : SKey) (h1 : skLe x y = true) (h2 : skLe y z = true) :
    skLe x z = true := by
  cases x <;> cases y <;> cases z <;> simp [skLe] at h1 h2 ⊢ <;>
    exact le_trans h1 h2

theorem skLe_ninf_right (x : SKey) (h : skLe x .ninf = true) : x = .ninf := by
  cases x <;> simp [skLe] at h ⊢

theorem skLe_pinf_left (x : SKey) (h : skLe .pinf x = true) : x = .pinf := by
  cases x <;> simp [skLe] at h ⊢

theorem strPassLe_refl (rev : Bool) (a : String) : strPassLe rev a a = true := by
  cases rev <;> simp [strPassLe, lexLe_refl]

theorem strPassLe_total (rev : Bool) (a b : String) :
    strPassLe rev a b = true ∨ strPassLe rev b a = true := by
  cases rev
  · simpa [strPassLe] using lexLe_total a.data b.data
  · simpa [strPassLe] using lexLe_total b.data a.data

theorem strPassLe_trans (rev : Bool) (a b c : String) (h1 : strPassLe rev a b = true)
    (h2 : strPassLe rev b c = true) : strPassLe rev a c = true := by
  cases rev <;> simp only [strPassLe] at h1 h2 ⊢ <;> simp at h1 h2 ⊢
  · exact lexLe_trans _ _ _ h1 h2
  · exact lexLe_trans _ _ _ h2 h1

/-- The key value a single numeric pass compares: equality of the underlying
dict entries makes the two `SKey`s equal. -/
theorem numSortKey_congr (rev : Bool) (key : String) (a b : Row)
    (h : numFieldGet a key = numFieldGet b key) :
    numSortKey rev key a = numSortKey rev key b := by
  simp only [numSortKey, h]

theorem passLe_refl (t : String × Bool × Option String) (a : Row) :
    passLe t a a = true := by
  rcases t with ⟨key, rev, lk⟩
  simp only [passLe]
  split_ifs <;> first | exact strPassLe_refl _ _ | exact skLe_refl _

theorem passLe_of_keyValEq (t : String × Bool × Option String) (a b : Row)
    (h : if t.1 = "label" then labelSortVal a t.2.2 = labelSortVal b t.2.2
         else if t.1 = "name" then a.name = b.name
         else numFieldGet a t.1 = numFieldGet b t.1) :
    passLe t a b = true := by
  rcases t with ⟨key, rev, lk⟩
  simp only [passLe]
  simp only at h
  split_ifs at h ⊢ with h1 h2
  · rw [h]
    exact strPassLe_refl _ _
  · rw [h]
    exact strPassLe_refl _ _
  · rw [numSortKey_congr rev key a b h]
    exact skLe_refl _
  · rw [numSortKey_congr rev key a b h]
    exact skLe_refl _

theorem passLe_total (t : String × Bool × Option String) (a b : Row) :
    passLe t a b = true ∨ passLe t b a = true := by
  rcases t with ⟨key, rev, lk⟩
  simp only [passLe]
  split_ifs
  · exact strPassLe_total _ _ _
  · exact strPassLe_total _ _ _
  · exact (skLe_total _ _).symm
  · exact skLe_total _ _

theorem passLe_trans (t : String × Bool × Option String) (a b c : Row)
    (h1 : passLe t a b = true) (h2 : passLe t b c = true) :
    passLe t a c = true := by
  rcases t with ⟨key, rev, lk⟩
  simp only [passLe] at h1 h2 ⊢
  split_ifs at h1 h2 ⊢
  · exact strPassLe_trans _ _ _ _ h1 h2
  · exact strPassLe_trans _ _ _ _ h1 h2
  · exact skLe_trans _ _ _ h2 h1
  · exact skLe_trans _ _ _ h1 h2

/-! ### Lemmas about characters, digits and list splitting -/

theorem digit_char_facts (c : Char) (h : c ∈ digitChars) :
    isAsciiDigit c = true ∧ isPySpace c = false ∧ isNumDot c = true ∧
    c ≠ 'i' ∧ c ≠ 'm' ∧ c ≠ 'n' ∧ c ≠ '+' ∧ c ≠ '-' ∧ c ≠ '.' ∧
    c ≠ 'e' ∧ c ≠ 'E' ∧ isDecSuffixChar c = false := by
  fin_cases h <;> decide

theorem takeWhile_append_of_all {α : Type} (p : α → Bool) :
    ∀ l r : List α, (∀ c ∈ l, p c = true) →
      (l ++ r).takeWhile p = l ++ r.takeWhile p
  | [], r, _ => by simp
  | x :: xs, r, h => by
    have hx : p x = true := h x (by simp)
    simp only [List.cons_append, List.takeWhile_cons, hx, if_true]
    rw [takeWhile_append_of_all p xs r (fun c hc => h c (by simp [hc]))]

theorem dropWhile_append_of_all {α : Type} (p : α → Bool) :
    ∀ l r : List α, (∀ c ∈ l, p c = true) →
      (l ++ r).dropWhile p = r.dropWhile p
  | [], r, _ => by simp
  | x :: xs, r, h => by
    have hx : p x = true := h x (by simp)
    simp only [List.cons_append, List.dropWhile_cons, hx, if_true]
    exact dropWhile_append_of_all p xs r (fun c hc => h c (by simp [hc]))

theorem dropWhile_of_all_false {α : Type} (p : α → Bool) :
    ∀ l : List α, (∀ c ∈ l, p c = false) → l.dropWhile p = l
  | [], _ => rfl
  | x :: xs, h => by
    have hx : p x = false := h x (by simp)
    simp [List.dropWhile_cons, hx]

/-- `str.strip()` leaves a string without leading/trailing (indeed, any)
whitespace unchanged. -/
theorem trimL_of_noSpace (l : List Char) (h : ∀ c ∈ l, isPySpace c = false) :
    trimL l = l := by
  unfold trimL
  rw [dropWhile_of_all_false isPySpace l h,
    dropWhile_of_all_false isPySpace l.reverse (fun c hc => h c (by simpa using hc)),
    List.reverse_reverse]

theorem dropLastL_append_one (l : List Char) (x : Char) :
    dropLastL (l ++ [x]) 1 = l := by
  simp [dropLastL]

theorem endsWithL_append_one (l : List Char) (x y : Char) :
    endsWithL (l ++ [x]) [y] = decide (x = y) := by
  simp only [endsWithL, List.reverse_append, List.reverse_cons, List.reverse_nil,
    List.nil_append, List.singleton_append, List.length_cons, List.length_nil,
    List.take_succ_cons, List.take_zero]
  by_cases h : x = y
  · simp [h]
  · simp [h]

theorem endsWithL_append_two (l : List Char) (x a b : Char) (h : x ≠ b) :
    endsWithL (l ++ [x]) [a, b] = false := by
  simp only [endsWithL, List.reverse_append, List.reverse_cons, List.reverse_nil,
    List.nil_append, List.singleton_append, List.length_cons, List.length_nil,
    List.take_succ_cons]
  simp [h]

/-- No `_BIN` suffix (all of which end in `'i'`) matches a string whose last
character is not `'i'`. -/
theorem binMatch_append_last (l : List Char) (x : Char) (h : x ≠ 'i') :
    binMatch (l ++ [x]) = none := by
  unfold binMatch binTable
  rw [List.find?_eq_none]
  intro p hp
  fin_cases hp <;>
    simp [endsWithL_append_two l x _ _ h]

theorem natOfDigitsL_nonneg_int (ds : List Char) :
    (0 : ℤ) ≤ (natOfDigitsL ds : ℤ) := Int.ofNat_nonneg _

theorem takeWhile_of_all {α : Type} (p : α → Bool) :
    ∀ l : List α, (∀ c ∈ l, p c = true) → l.takeWhile p = l
  | [], _ => rfl
  | x :: xs, h => by
    simp only [List.takeWhile_cons, h x (by simp), if_true]
    rw [takeWhile_of_all p xs (fun c hc => h c (by simp [hc]))]

theorem dropWhile_of_all {α : Type} (p : α → Bool) :
    ∀ l : List α, (∀ c ∈ l, p c = true) → l.dropWhile p = []
  | [], _ => rfl
  | x :: xs, h => by
    simp only [List.dropWhile_cons, h x (by simp), if_true]
    exact dropWhile_of_all p xs (fun c hc => h c (by simp [hc]))

theorem int_tdiv_one (n : ℤ) : n.tdiv 1 = n := by
  cases n
  · simp [Int.tdiv, Nat.div_one]
  · simp [Int.tdiv, Nat.div_one, Int.negSucc_eq]

theorem dec_trunc_int (n : ℤ) : Dec.trunc ⟨n, 0⟩ = n := by
  simp [Dec.trunc, int_tdiv_one]

/-- `pyFloatL` on a nonempty all-digit string yields its numeric value. -/
theorem pyFloatL_digits (ds : List Char) (h1 : ds ≠ [])
    (h2 : ∀ c ∈ ds, c ∈ digitChars) :
    pyFloatL ds = some ⟨(natOfDigitsL ds : ℤ), 0⟩ := by
  have htrim : trimL ds = ds :=
    trimL_of_noSpace ds (fun c hc => (digit_char_facts c (h2 c hc)).2.1)
  have hdig : ∀ c ∈ ds, isAsciiDigit c = true :=
    fun c hc => (digit_char_facts c (h2 c hc)).1
  cases ds with
  | nil => exact absurd rfl h1
  | cons d rest =>
    have hd := digit_char_facts d (h2 d (by simp))
    have hplus : d ≠ '+' := hd.2.2.2.2.2.2.1
    have hminus : d ≠ '-' := hd.2.2.2.2.2.2.2.1
    have htw : (d :: rest).takeWhile isAsciiDigit = d :: rest :=
      takeWhile_of_all isAsciiDigit (d :: rest) hdig
    have hdw : (d :: rest).dropWhile isAsciiDigit = [] :=
      dropWhile_of_all isAsciiDigit (d :: rest) hdig
    have hcore : pyFloatCore (d :: rest) = some ⟨(natOfDigitsL (d :: rest) : ℤ), 0⟩ := by
      simp [pyFloatCore, spanDigits, htw, hdw, parseExpTail]
    simp [pyFloatL, htrim, hplus, hminus, hcore]

/-! ### Characterization of which inputs make the converters raise -/

theorem memParse_error_iff (t : List Char) :
    memParse t = .error () ↔ memRaisesT t = true := by
  unfold memParse memRaisesT
  by_cases h0 : t = []
  · simp [h0]
  · rw [if_neg h0, if_neg h0]
    cases hb : binMatch t with
    | some p =>
      rcases p with ⟨suf, mult⟩
      by_cases hp : dropLastL t suf.length = []
      · simp [hp]
      · cases hf : pyFloatL (dropLastL t suf.length) <;> simp [hp, hf]
    | none =>
      cases hr : memRegexSplit t with
      | some p =>
        rcases p with ⟨body, suf⟩
        cases hf : pyFloatL body <;> simp [hf]
      | none =>
        by_cases hd : t.all isAsciiDigit
        · simp [hd]
        · cases hf : pyFloatL t <;> simp [hd, hf]

theorem cpuParse_error_iff (t : List Char) :
    cpuParse t = .error () ↔ cpuRaisesT t = true := by
  unfold cpuParse cpuRaisesT
  by_cases h0 : t = []
  · simp [h0]
  · rw [if_neg h0, if_neg h0]
    by_cases hm : endsWithL t ['m'] = true
    · cases hf : pyFloatL (dropLastL t 1) <;> simp [hm, hf]
    · by_cases hn : endsWithL t ['n'] = true
      · by_cases hp : dropLastL t 1 = []
        · simp [hm, hn, hp]
        · cases hf : pyFloatL (dropLastL t 1) <;> simp [hm, hn, hp, hf]
      · cases hf : pyFloatL t <;> simp [hm, hn, hf]

/-! ### Behaviour of the converters on digit strings with a one-letter suffix -/

theorem pyFloatL_eq_of_trim (cs : List Char) (c : Char) (r : List Char)
    (h : trimL cs = c :: r) :
    pyFloatL cs =
      if c = '+' then pyFloatCore r
      else if c = '-' then (pyFloatCore r).map Dec.neg
      else pyFloatCore (c :: r) := by
  rw [pyFloatL, h]

theorem pyFloatL_digits_append_bad (ds : List Char) (x : Char) (h1 : ds ≠ [])
    (h2 : ∀ c ∈ ds, c ∈ digitChars) (hxd : isAsciiDigit x = false)
    (hxs : isPySpace x = false) (hxdot : x ≠ '.') (hxe : x ≠ 'e')
    (hxE : x ≠ 'E') : pyFloatL (ds ++ [x]) = none := by
  have hdig : ∀ c ∈ ds, isAsciiDigit c = true :=
    fun c hc => (digit_char_facts c (h2 c hc)).1
  have htrim : trimL (ds ++ [x]) = ds ++ [x] := by
    refine trimL_of_noSpace _ (fun c hc => ?_)
    rcases List.mem_append.mp hc with hc' | hc'
    · exact (digit_char_facts c (h2 c hc')).2.1
    · simp only [List.mem_singleton] at hc'
      rw [hc']
      exact hxs
  have htw : (ds ++ [x]).takeWhile isAsciiDigit = ds := by
    rw [takeWhile_append_of_all isAsciiDigit ds [x] hdig]
    simp [List.takeWhile_cons, hxd]
  have hdw : (ds ++ [x]).dropWhile isAsciiDigit = [x] := by
    rw [dropWhile_append_of_all isAsciiDigit ds [x] hdig]
    simp [List.dropWhile_cons, hxd]
  cases ds with
  | nil => exact absurd rfl h1
  | cons d rest =>
    have hd := digit_char_facts d (h2 d (by simp))
    have hplus : d ≠ '+' := hd.2.2.2.2.2.2.1
    have hminus : d ≠ '-' := hd.2.2.2.2.2.2.2.1
    have hcore : pyFloatCore ((d :: rest) ++ [x]) = none := by
      simp only [pyFloatCore, spanDigits, htw, hdw]
      split
      · rename_i r2 heq
        simp only [List.cons.injEq] at heq
        exact absurd heq.1 hxdot
      · rw [if_neg (by simp : ¬(d :: rest = []))]
        simp [parseExpTail, hxe, hxE]
    rw [pyFloatL_eq_of_trim _ _ _ htrim, if_neg hplus, if_neg hminus]
    exact hcore

theorem digits_noSpace_append (ds : List Char) (x : Char)
    (h2 : ∀ c ∈ ds, c ∈ digitChars) (hxs : isPySpace x = false) :
    trimL (ds ++ [x]) = ds ++ [x] := by
  refine trimL_of_noSpace _ (fun c hc => ?_)
  rcases List.mem_append.mp hc with hc' | hc'
  · exact (digit_char_facts c (h2 c hc')).2.1
  · simp only [List.mem_singleton] at hc'
    rw [hc']
    exact hxs

theorem cpuParse_digits_m (ds : List Char) (h1 : ds ≠ [])
    (h2 : ∀ c ∈ ds, c ∈ digitChars) :
    cpuParse (ds ++ ['m']) = .ok (natOfDigitsL ds) := by
  have hm : endsWithL (ds ++ ['m']) ['m'] = true := by
    rw [endsWithL_append_one]
    simp
  rw [cpuParse, if_neg (by simp), if_pos hm, dropLastL_append_one,
    pyFloatL_digits ds h1 h2]
  simp [dec_trunc_int]

theorem cpuParse_digits_n (ds : List Char) (h1 : ds ≠ [])
    (h2 : ∀ c ∈ ds, c ∈ digitChars) :
    cpuParse (ds ++ ['n']) = .ok (((natOfDigitsL ds : ℤ) * 1000).tdiv (10 ^ 9 : ℕ)) := by
  have hm : endsWithL (ds ++ ['n']) ['m'] = false := by
    rw [endsWithL_append_one]
    simp
  have hn : endsWithL (ds ++ ['n']) ['n'] = true := by
    rw [endsWithL_append_one]
    simp
  rw [cpuParse, if_neg (by simp), hm]
  rw [if_neg (by simp), if_pos hn, dropLastL_append_one]
  simp [h1, pyFloatL_digits ds h1 h2, Dec.trunc, Dec.scale, Dec.divPow10]

theorem cpuParse_digits_plain (ds : List Char) (h1 : ds ≠ [])
    (h2 : ∀ c ∈ ds, c ∈ digitChars) :
    cpuParse ds = .ok ((natOfDigitsL ds : ℤ) * 1000) := by
  have hlast : ds.dropLast ++ [ds.getLast h1] = ds := List.dropLast_append_getLast h1
  have hgl : ds.getLast h1 ∈ digitChars := h2 _ (List.getLast_mem h1)
  have hm : endsWithL ds ['m'] = false := by
    rw [← hlast, endsWithL_append_one]
    simp [(digit_char_facts _ hgl).2.2.2.2.1]
  have hn : endsWithL ds ['n'] = false := by
    rw [← hlast, endsWithL_append_one]
    simp [(digit_char_facts _ hgl).2.2.2.2.2.1]
  rw [cpuParse, if_neg h1, hm]
  rw [if_neg (by simp), hn, if_neg (by simp)]
  simp [pyFloatL_digits ds h1 h2, Dec.trunc, Dec.scale, int_tdiv_one]

theorem memParse_digits_m (ds : List Char) (h1 : ds ≠ [])
    (h2 : ∀ c ∈ ds, c ∈ digitChars) :
    memParse (ds ++ ['m']) = .ok 0 := by
  have hnum : ∀ c ∈ ds, isNumDot c = true :=
    fun c hc => (digit_char_facts c (h2 c hc)).2.2.1
  have hbm : binMatch (ds ++ ['m']) = none := binMatch_append_last ds 'm' (by decide)
  have hreg : memRegexSplit (ds ++ ['m']) = none := by
    unfold memRegexSplit
    rw [takeWhile_append_of_all isNumDot ds ['m'] hnum,
      dropWhile_append_of_all isNumDot ds ['m'] hnum]
    simp [List.takeWhile_cons, List.dropWhile_cons,
      (by decide : isNumDot 'm' = false), h1,
      (by decide : isDecSuffixChar 'm' = false)]
  have hall : (ds ++ ['m']).all isAsciiDigit = false := by
    simp [List.all_append, (by decide : isAsciiDigit 'm' = false)]
  have hbad : pyFloatL (ds ++ ['m']) = none :=
    pyFloatL_digits_append_bad ds 'm' h1 h2 (by decide) (by decide) (by decide)
      (by decide) (by decide)
  rw [memParse, if_neg (by simp)]
  simp [hbm, hreg, hall, hbad]

theorem memParse_digits_k (ds : List Char) (h1 : ds ≠ [])
    (h2 : ∀ c ∈ ds, c ∈ digitChars) :
    memParse (ds ++ ['k']) = .ok ((natOfDigitsL ds : ℤ) * 1000) := by
  have hnum : ∀ c ∈ ds, isNumDot c = true :=
    fun c hc => (digit_char_facts c (h2 c hc)).2.2.1
  have hbm : binMatch (ds ++ ['k']) = none := binMatch_append_last ds 'k' (by decide)
  have hreg : memRegexSplit (ds ++ ['k']) = some (ds, some 'k') := by
    unfold memRegexSplit
    rw [takeWhile_append_of_all isNumDot ds ['k'] hnum,
      dropWhile_append_of_all isNumDot ds ['k'] hnum]
    simp [List.takeWhile_cons, List.dropWhile_cons,
      (by decide : isNumDot 'k' = false), h1,
      (by decide : isDecSuffixChar 'k' = true)]
  rw [memParse, if_neg (by simp)]
  simp [hbm, hreg, pyFloatL_digits ds h1 h2, Dec.trunc, Dec.mulPow10,
    decMultPow10, int_tdiv_one]

/-! ### Equivalence of the order-by parser with its spec-side description -/

theorem endsWith_single_mem (cs : List Char) (c : Char)
    (h : endsWithL cs [c] = true) : c ∈ cs := by
  have h' : cs.reverse.take 1 = [c] := by simpa [endsWithL] using h
  have : c ∈ cs.reverse.take 1 := by
    rw [h']
    simp
  exact List.mem_reverse.mp (List.take_subset 1 cs.reverse this)

/-- On a newline-free item the direction regex always matches, and behaves as
the spec describes. -/
theorem splitDirL_of_noNL (item : List Char) (h : hasNL item = false) :
    splitDirL item = some (specSplitDir item) := by
  have hforall : ∀ c ∈ item, ¬(c = '\n') := by
    simpa [hasNL] using h
  have hend : endsWithL item ['\n'] = false := by
    cases he : endsWithL item ['\n']
    · rfl
    · exact absurd rfl (hforall '\n' (endsWith_single_mem item '\n' he))
  simp only [splitDirL, hend, Bool.false_eq_true, if_false, h]
  unfold specSplitDir
  split_ifs <;> rfl

theorem resolveItem_ok_of_noNL (labels : List String) (item : List Char)
    (h : hasNL item = false) :
    resolveItem labels item = .ok (specResolveOne labels item) := by
  rw [resolveItem, splitDirL_of_noNL item h]
  simp only [specResolveOne, specRuleExact, specRuleLabel, specRuleFallback]
  cases h1 : dictGet builtinColMap (String.mk (normL (trimL (specSplitDir item).1))) with
  | some k => simp [h1, firstSome]
  | none =>
    simp only [h1, Option.map_none]
    cases h2 : (labels.find? (fun lk =>
        decide (normL lk.data = normL (trimL (specSplitDir item).1)) ||
        decide (lk.data = trimL (specSplitDir item).1))) with
    | some lk => simp [h2, firstSome]
    | none =>
      simp only [h2, Option.map_none]
      cases h3 : builtinColMap.find? (fun p =>
          startsWithL p.1.data (normL (trimL (specSplitDir item).1)) ||
          startsWithL (normL (trimL (specSplitDir item).1)) p.1.data) with
      | some pr => simp [h3, firstSome]
      | none => simp [h3, firstSome]

/-- `resolveItem` propagates an exception exactly when the direction regex
fails to match. -/
theorem resolveItem_error_iff (labels : List String) (item : List Char) :
    resolveItem labels item = .error () ↔ splitDirL item = none := by
  cases hs : splitDirL item with
  | none => simp [resolveItem, hs]
  | some p =>
    rcases p with ⟨rawCol, rev⟩
    simp only [resolveItem, hs]
    cases h1 : dictGet builtinColMap (String.mk (normL (trimL rawCol))) with
    | some k => simp [h1]
    | none =>
      simp only [h1]
      cases h2 : (labels.find? (fun lk =>
          decide (normL lk.data = normL (trimL rawCol)) ||
          decide (lk.data = trimL rawCol))) with
      | some lk => simp [h2]
      | none =>
        simp only [h2]
        cases h3 : builtinColMap.find? (fun pr =>
            startsWithL pr.1.data (normL (trimL rawCol)) ||
            startsWithL (normL (trimL rawCol)) pr.1.data) with
        | some pr => simp [h3]
        | none => simp [h3]

theorem parseOrderLoop_ok_of_noNL (labels : List String) :
    ∀ items : List (List Char), (∀ i ∈ items, hasNL i = false) →
      parseOrderLoop labels items = .ok (items.filterMap (specResolveOne labels))
  | [], _ => rfl
  | item :: rest, h => by
    have hi := resolveItem_ok_of_noNL labels item (h item (by simp))
    have hr := parseOrderLoop_ok_of_noNL labels rest (fun i hi' => h i (by simp [hi']))
    simp only [parseOrderLoop, hi, hr, List.filterMap_cons]
    cases hso : specResolveOne labels item <;> simp [hso]

theorem parseOrderLoop_error_iff (labels : List String) :
    ∀ items : List (List Char),
      (parseOrderLoop labels items = .error () ↔ ∃ i ∈ items, splitDirL i = none)
  | [] => by simp [parseOrderLoop]
  | item :: rest => by
    simp only [parseOrderLoop]
    cases hr : resolveItem labels item with
    | error e =>
      cases e
      have hsp := (resolveItem_error_iff labels item).mp hr
      simp only [List.mem_cons]
      exact ⟨fun _ => ⟨item, Or.inl rfl, hsp⟩, fun _ => trivial⟩
    | ok o =>
      have hne : ¬(splitDirL item = none) := by
        intro hsome
        have herr := (resolveItem_error_iff labels item).mpr hsome
        rw [hr] at herr
        simp at herr
      cases o with
      | none =>
        rw [parseOrderLoop_error_iff labels rest]
        simp only [List.mem_cons]
        constructor
        · rintro ⟨i, hi, hsp⟩
          exact ⟨i, Or.inr hi, hsp⟩
        · rintro ⟨i, hi | hi, hsp⟩
          · exact absurd (hi ▸ hsp) hne
          · exact ⟨i, hi, hsp⟩
      | some t =>
        cases hrr : parseOrderLoop labels rest with
        | error e2 =>
          cases e2
          have := (parseOrderLoop_error_iff labels rest).mp hrr
          rcases this with ⟨i, hi, hsp⟩
          simp only [List.mem_cons]
          exact ⟨fun _ => ⟨i, Or.inr hi, hsp⟩, fun _ => trivial⟩
        | ok ts =>
          simp only [List.mem_cons]
          constructor
          · intro hfalse
            simp at hfalse
          · rintro ⟨i, hi | hi, hsp⟩
            · exact absurd (hi ▸ hsp) hne
            · exact absurd ((parseOrderLoop_error_iff labels rest).mpr ⟨i, hi, hsp⟩)
                (by rw [hrr]; simp)

/-! ### Disk-usage and row-assembly lemmas -/

theorem diskResultValue_eq_expected (r : Option (ℚ × ℚ)) :
    diskResultValue r = diskExpected r := by
  rcases r with _ | ⟨u, c⟩
  · rfl
  · by_cases hc : c = 0 <;>
      simp [diskResultValue, fetch_node_disk_usage, diskExpected, hc]

theorem diskUsageMap_lookup (resp : String → Option (ℚ × ℚ)) (n : String) :
    ∀ names : List String, n ∈ names →
      (diskUsageMap names resp).lookup n = some (diskResultValue (resp n))
  | [], h => absurd h (by simp)
  | m :: rest, h => by
    by_cases hnm : n = m
    · simp [diskUsageMap, List.lookup, hnm]
    · have hmem : n ∈ rest := by
        rcases List.mem_cons.mp h with h' | h'
        · exact absurd h' hnm
        · exact h'
      have ih := diskUsageMap_lookup resp n rest hmem
      have hbeq : (n == m) = false := by simpa using hnm
      simp only [diskUsageMap, List.map_cons, List.lookup, hbeq]
      exact ih

theorem diskUsageMap_length (names : List String) (resp : String → Option (ℚ × ℚ)) :
    (diskUsageMap names resp).length = names.length := by
  simp [diskUsageMap]

/-! ### Composition lemmas for `sort_rows_in_place` -/

theorem foldl_sortPass_filter (p : Row → Bool) :
    ∀ (ts : List (String × Bool × Option String)) (rows : List Row),
      (∀ t ∈ ts, ∀ a b : Row, p a = true → p b = true → passLe t a b = true) →
      (ts.foldl sortPass rows).filter p = rows.filter p
  | [], rows, _ => rfl
  | t :: ts', rows, hp => by
    simp only [List.foldl_cons]
    rw [foldl_sortPass_filter p ts' (sortPass rows t)
      (fun t' ht' => hp t' (by simp [ht']))]
    exact isort_filter_stable (passLe t) p (hp t (by simp)) rows

theorem sort_rows_filter_stable (specs : List (String × Bool × Option String))
    (rows : List Row) (p : Row → Bool)
    (hp : ∀ a b : Row, p a = true → p b = true → keyEqOn specs a b) :
    (sort_rows_in_place rows specs).filter p = rows.filter p := by
  by_cases hs : specs = []
  · simp [sort_rows_in_place, hs]
  · rw [sort_rows_in_place, if_neg hs]
    refine foldl_sortPass_filter p specs.reverse rows ?_
    intro t ht a b ha hb
    exact passLe_of_keyValEq t a b (hp a b ha hb t (List.mem_reverse.mp ht))

theorem sort_rows_primary_sorted (t : String × Bool × Option String)
    (rest : List (String × Bool × Option String)) (rows : List Row) :
    (sort_rows_in_place rows (t :: rest)).Pairwise (fun a b => passLe t a b = true) := by
  rw [sort_rows_in_place, if_neg (by simp), List.reverse_cons, List.foldl_append]
  exact isort_pairwise (passLe t) (passLe_total t) (passLe_trans t) _

/-- After a numeric-key sort pass, a row with a present value never precedes a
row with a missing value. -/
theorem sortPass_missing_first (key : String) (rev : Bool) (lk : Option String)
    (rows : List Row) (hk1 : key ≠ "label") (hk2 : key ≠ "name") :
    (sortPass rows (key, rev, lk)).Pairwise
      (fun a b => numFieldGet b key = none → numFieldGet a key = none) := by
  have hsorted : (sortPass rows (key, rev, lk)).Pairwise
      (fun a b => passLe (key, rev, lk) a b = true) :=
    isort_pairwise _ (passLe_total _) (passLe_trans _) rows
  refine hsorted.imp ?_
  intro a b hle hb
  simp only [passLe, if_neg hk1, if_neg hk2] at hle
  cases rev with
  | false =>
    simp only [if_neg (by simp : ¬(false = true))] at hle
    have hbk : numSortKey false key b = .ninf := by simp [numSortKey, hb]
    rw [hbk] at hle
    have := skLe_ninf_right _ hle
    cases hak : numFieldGet a key with
    | none => rfl
    | some v =>
      rw [show numSortKey false key a = .fin v by simp [numSortKey, hak]] at this
      exact absurd this (by simp)
  | true =>
    simp only [if_pos rfl] at hle
    have hbk : numSortKey true key b = .pinf := by simp [numSortKey, hb]
    rw [hbk] at hle
    have := skLe_pinf_left _ hle
    cases hak : numFieldGet a key with
    | none => rfl
    | some v =>
      rw [show numSortKey true key a = .fin v by simp [numSortKey, hak]] at this
      exact absurd this (by simp)

/-! ### Claim theorems -/

/-- C1, counterexample: the converters are not total.  On `"abcKi"` the
memory parser hits `float("abc")` inside the unguarded binary-suffix branch
and raises; on `"xm"` the cpu parser hits `int(float("x"))` and raises —
neither returns 0 as the claim asserts. -/
theorem c1_counterexample :
    parse_memory_to_bytes "abcKi" = .error () ∧
    parse_cpu_to_millicores "xm" = .error () := by
  decide

/-- C1 (amended): the converters return an integer (0 on unparsable input)
except exactly when a recognized suffix follows a prefix that does not parse
as a float: the memory parser raises iff a binary suffix matched with a
nonempty non-float prefix, or the `[0-9.]+` regex body is not a valid float;
the cpu parser raises iff it ends in `m` with a non-float (possibly empty)
prefix, or in `n` with a nonempty non-float prefix. -/
theorem c1_amended_raise_characterization (q : String) :
    (parse_memory_to_bytes q = .error () ↔ memRaisesT (trimL q.data) = true) ∧
    (parse_cpu_to_millicores q = .error () ↔ cpuRaisesT (trimL q.data) = true) := by
  exact ⟨memParse_error_iff (trimL q.data), cpuParse_error_iff (trimL q.data)⟩

/-- C2, counterexample: on a run where spawning the proxy fails, the header
row has already been printed, so output does precede connectivity
resolution, contrary to the claim that the run aborts before any output. -/
theorem c2_counterexample :
    noOutputBeforeConn
      (mainScript [] none (start_kubectl_proxy none "") (fun _ => [])) = false ∧
    mainScript [] none (start_kubectl_proxy none "") (fun _ => []) =
      [MainEvent.out (headerLine []),
       MainEvent.fatal "Failed to start kubectl proxy. Output so far:\n(no output)"] := by
  constructor
  · rfl
  · rfl

/-- C2 (amended): when connectivity cannot be established the run is fatal —
it ends with an uncaught error (non-zero termination) whose text names the
failing proxy command and carries the underlying output, and no part of the
report other than the already-printed header row is produced; the header
row, however, is printed before connectivity is resolved. -/
theorem c2_amended_failure_trace (labels : List String) (leftover : String)
    (rest : String → List MainEvent) :
    mainScript labels none (start_kubectl_proxy none leftover) rest =
      [MainEvent.out (headerLine labels),
       MainEvent.fatal ("Failed to start kubectl proxy. Output so far:\n" ++
         (if leftover = "" then "(no output)" else leftover))] := by
  simp [mainScript, start_kubectl_proxy]

/-- C3, counterexample: sorting by the numeric key `cpu_m`, the row with the
missing value comes out FIRST both ascending and descending — the
substituted infinities push missing values to the beginning of the order,
not to the end as the claim asserts. -/
theorem c3_counterexample :
    sort_rows_in_place [rowPresent, rowMissing] [("cpu_m", false, none)] =
      [rowMissing, rowPresent] ∧
    sort_rows_in_place [rowPresent, rowMissing] [("cpu_m", true, none)] =
      [rowMissing, rowPresent] ∧
    rowMissing.cpu_m = none ∧ rowPresent.cpu_m = some 5 ∧
    rowMissing ≠ rowPresent := by
  decide

/-- C3 (amended): for a numeric sort key a missing value sorts as negative
infinity when ascending and positive infinity when descending, which pushes
missing values to the BEGINNING of the order regardless of direction (after
a numeric pass no present-value row precedes a missing-value row); for a
label sort key a missing label (or a `None` value) sorts as the empty
string. -/
theorem c3_amended_missing_sorts_first :
    (∀ (rev : Bool) (key : String) (r : Row), numFieldGet r key = none →
      numSortKey rev key r = (if rev then SKey.pinf else SKey.ninf)) ∧
    (∀ (key : String) (rev : Bool) (lk : Option String) (rows : List Row),
      key ≠ "label" → key ≠ "name" →
      (sortPass rows (key, rev, lk)).Pairwise
        (fun a b => numFieldGet b key = none → numFieldGet a key = none)) ∧
    (∀ (r : Row) (lk : String),
      r.labels.lookup lk = none ∨ r.labels.lookup lk = some none →
      labelSortVal r (some lk) = "") := by
  refine ⟨?_, ?_, ?_⟩
  · intro rev key r h
    simp [numSortKey, h]
  · intro key rev lk rows h1 h2
    exact sortPass_missing_first key rev lk rows h1 h2
  · intro r lk h
    rcases h with h | h <;> simp [labelSortVal, h]

/-- C3, witness. -/
theorem c3_witness :
    numSortKey true "cpu_m" rowMissing = SKey.pinf ∧
    (sortPass [rowPresent, rowMissing] ("cpu_m", false, none)).Pairwise
      (fun a b => numFieldGet b "cpu_m" = none → numFieldGet a "cpu_m" = none) ∧
    labelSortVal rowMissing (some "zone") = "" := by
  have h := c3_amended_missing_sorts_first
  exact ⟨by simpa using h.1 true "cpu_m" rowMissing (by decide),
    h.2.1 "cpu_m" false none [rowPresent, rowMissing] (by decide) (by decide),
    h.2.2 rowMissing "zone" (Or.inl (by decide))⟩

/-- C4, counterexample: the claim's reference mechanism (decimal suffixes
`n,u,m,…` applied as multipliers via the regex) disagrees with the code: for
`"5000m"` milli-multiplication would give `int(5000 * 1e-3) = 5`, but the
code's regex accepts only `[kKMGTPE]`, so `"5000m"` falls through to the
catch-all and yields 0. -/
theorem c4_counterexample :
    parse_memory_to_bytes "5000m" = .ok 0 ∧
    parse_memory_spec_model "5000m" = 5 := by
  decide

/-- C4 (amended): binary suffixes are tried first, then a regex whose suffix
class is only `k,K,M,G,T,P,E` (the `n,u,m` entries of the decimal table are
unreachable from the memory parser), then the plain parse;
`parse_memory_to_bytes("128Ki") = 131072`, `("1Gi") = 1073741824`, and
`("500m") = 0` — the latter via the unparsable-input fallback, not milli
multiplication: every `<digits>m` input yields 0, while `<digits>k` is
genuinely multiplied by 1000. -/
theorem c4_amended_memory_reference (ds : List Char) (h1 : ds ≠ [])
    (h2 : ∀ c ∈ ds, c ∈ digitChars) :
    parse_memory_to_bytes "128Ki" = .ok 131072 ∧
    parse_memory_to_bytes "1Gi" = .ok 1073741824 ∧
    parse_memory_to_bytes "500m" = .ok 0 ∧
    parse_memory_to_bytes (String.mk (ds ++ ['m'])) = .ok 0 ∧
    parse_memory_to_bytes (String.mk (ds ++ ['k'])) =
      .ok ((natOfDigitsL ds : ℤ) * 1000) := by
  refine ⟨by decide, by decide, by decide, ?_, ?_⟩
  · have he : parse_memory_to_bytes (String.mk (ds ++ ['m'])) =
        memParse (trimL (ds ++ ['m'])) := rfl
    rw [he, digits_noSpace_append ds 'm' h2 (by decide)]
    exact memParse_digits_m ds h1 h2
  · have he : parse_memory_to_bytes (String.mk (ds ++ ['k'])) =
        memParse (trimL (ds ++ ['k'])) := rfl
    rw [he, digits_noSpace_append ds 'k' h2 (by decide)]
    exact memParse_digits_k ds h1 h2

/-- C4, witness. -/
theorem c4_witness :
    parse_memory_to_bytes "500m" = .ok 0 ∧
    parse_memory_to_bytes "500k" = .ok 500000 := by
  have h := c4_amended_memory_reference ("500".data) (by decide) (by decide)
  refine ⟨h.2.2.1, ?_⟩
  have h5 := h.2.2.2.2
  rw [show String.mk ("500".data ++ ['k']) = "500k" from by decide,
    show ((natOfDigitsL ("500".data) : ℤ) * 1000) = 500000 from by decide] at h5
  exact h5

/-- C5, counterexample: items are not always "silently dropped (no error)".
An item with an interior newline is not matched by the direction regex
(`.` excludes newlines and `$` anchors at the end), so `m` is `None` and
`m.group(1)` raises `AttributeError` — `parse_order_by` crashes instead of
dropping anything. -/
theorem c5_counterexample :
    parse_order_by "a\nb" [] = .error () := by
  decide

/-- C5 (amended): for every item matched by the direction regex — i.e. every
item without an interior newline — the parser behaves exactly as the spec
describes (split on commas, optional case-insensitive `:asc`/`:desc` with
default ascending, resolution priority (a) exact normalized builtin alias,
(b) requested label key, (c) first prefix-related builtin alias in table
iteration order, unresolvable items silently dropped, order preserved),
proved as equality with a definition written from the spec text; and the
call raises (AttributeError) exactly when some stripped, nonempty item fails
the direction regex. -/
theorem c5_amended_order_by_behavior (spec : String) (labels : List String) :
    ((∀ i ∈ orderItemsOf spec, hasNL i = false) →
      parse_order_by spec labels = .ok (parse_order_by_spec_model spec labels)) ∧
    (parse_order_by spec labels = .error () ↔
      ∃ i ∈ orderItemsOf spec, splitDirL i = none) := by
  by_cases h : spec = ""
  · constructor
    · intro _
      simp [parse_order_by, parse_order_by_spec_model, h]
    · subst h
      simp [parse_order_by, orderItemsOf, splitOnCommaL, trimL]
  · constructor
    · intro hnl
      rw [parse_order_by, if_neg h, parse_order_by_spec_model, if_neg h]
      rw [parseOrderLoop_ok_of_noNL labels (orderItemsOf spec) hnl]
    · rw [parse_order_by, if_neg h]
      exact parseOrderLoop_error_iff labels (orderItemsOf spec)

/-- C5, witness. -/
theorem c5_witness :
    parse_order_by "cpu%:desc,zone:asc" ["zone"] =
      .ok [("cpu_perc", true, none), ("label", false, some "zone")] := by
  have h := (c5_amended_order_by_behavior "cpu%:desc,zone:asc" ["zone"]).1 (by decide)
  rw [show parse_order_by_spec_model "cpu%:desc,zone:asc" ["zone"] =
    [("cpu_perc", true, none), ("label", false, some "zone")] from by decide] at h
  exact h

/-- C6: `sort_rows_in_place` applies one stable sort per spec entry,
back-to-front, so the first entry is the primary key: an empty spec leaves
the rows exactly in their pre-existing order; rows agreeing on every key of
the spec keep their relative order (stated as filter-stability for any
predicate that only selects key-equal rows); and for a nonempty spec the
result is sorted by the first entry's comparison. -/
theorem c6_stable_multikey_sort (specs : List (String × Bool × Option String))
    (rows : List Row) (p : Row → Bool) :
    sort_rows_in_place rows [] = rows ∧
    ((∀ a b : Row, p a = true → p b = true → keyEqOn specs a b) →
      (sort_rows_in_place rows specs).filter p = rows.filter p) ∧
    (∀ t rest, specs = t :: rest →
      (sort_rows_in_place rows specs).Pairwise (fun a b => passLe t a b = true)) := by
  refine ⟨by simp [sort_rows_in_place], ?_, ?_⟩
  · intro hp
    exact sort_rows_filter_stable specs rows p hp
  · intro t rest hspec
    rw [hspec]
    exact sort_rows_primary_sorted t rest rows

/-- C6, witness. -/
theorem c6_witness :
    sort_rows_in_place [rowPresent, rowMissing] [] = [rowPresent, rowMissing] ∧
    (sort_rows_in_place [rowPresent, rowMissing] [("cpu_m", false, none)]).filter
      (fun r => decide (r.cpu_m = some 5)) =
      ([rowPresent, rowMissing]).filter (fun r => decide (r.cpu_m = some 5)) ∧
    (sort_rows_in_place [rowPresent, rowMissing] [("cpu_m", false, none)]).Pairwise
      (fun a b => passLe ("cpu_m", false, none) a b = true) := by
  have h := c6_stable_multikey_sort [("cpu_m", false, none)] [rowPresent, rowMissing]
    (fun r => decide (r.cpu_m = some 5))
  refine ⟨h.1, h.2.1 ?_, h.2.2 ("cpu_m", false, none) [] rfl⟩
  intro a b ha hb
  have ha' : a.cpu_m = some 5 := of_decide_eq_true ha
  have hb' : b.cpu_m = some 5 := of_decide_eq_true hb
  intro t ht
  simp only [List.mem_singleton] at ht
  subst ht
  dsimp only
  rw [if_neg (by decide : ¬("cpu_m" = "label")),
    if_neg (by decide : ¬("cpu_m" = "name"))]
  show numFieldGet a "cpu_m" = numFieldGet b "cpu_m"
  have hk : ∀ r : Row, numFieldGet r "cpu_m" = r.cpu_m := fun r => rfl
  rw [hk a, hk b, ha', hb']

/-- C7: for every node in the listing, the disk-usage mapping contains an
entry whose value is `usedBytes / capacityBytes * 100`, except that a zero
capacity yields 0 and any fetch/parse failure yields exactly 0 for that node
without affecting others (each node's value depends only on its own
response); every node, including failed ones, receives an entry. -/
theorem c7_disk_per_node (names : List String) (resp : String → Option (ℚ × ℚ))
    (n : String) (h : n ∈ names) :
    (diskUsageMap names resp).lookup n = some (diskExpected (resp n)) ∧
    (diskUsageMap names resp).length = names.length := by
  refine ⟨?_, diskUsageMap_length names resp⟩
  rw [diskUsageMap_lookup resp n names h, diskResultValue_eq_expected]

/-- C7, witness. -/
theorem c7_witness :
    (diskUsageMap ["a", "b"] diskRespW).lookup "a" = some 0 ∧
    (diskUsageMap ["a", "b"] diskRespW).lookup "b" = some 50 ∧
    (diskUsageMap ["a", "b"] diskRespW).length = 2 := by
  have ha := c7_disk_per_node ["a", "b"] diskRespW "a" (by simp)
  have hb := c7_disk_per_node ["a", "b"] diskRespW "b" (by simp)
  refine ⟨?_, ?_, ha.2⟩
  · have h1 := ha.1
    rw [show diskExpected (diskRespW "a") = 0 from rfl] at h1
    exact h1
  · have h1 := hb.1
    rw [show diskExpected (diskRespW "b") = 50 from by
      norm_num [diskRespW, diskExpected, (by decide : ¬("b" = "a"))]] at h1
    exact h1

/-- C8: the cpu converter matches the reference definition — a trailing `m`
takes the numeric prefix as millicores directly, a trailing `n` converts
nanocores via `n * 1000 / 1e9`, and otherwise the whole string is cores
times 1000; in particular the three quoted equations hold, and they hold
for every digit string. -/
theorem c8_cpu_parser_reference (ds : List Char) (h1 : ds ≠ [])
    (h2 : ∀ c ∈ ds, c ∈ digitChars) :
    parse_cpu_to_millicores "250m" = .ok 250 ∧
    parse_cpu_to_millicores "500000000n" = .ok 500 ∧
    parse_cpu_to_millicores "2" = .ok 2000 ∧
    parse_cpu_to_millicores (String.mk (ds ++ ['m'])) = .ok (natOfDigitsL ds) ∧
    parse_cpu_to_millicores (String.mk (ds ++ ['n'])) =
      .ok (((natOfDigitsL ds : ℤ) * 1000).tdiv (10 ^ 9 : ℕ)) ∧
    parse_cpu_to_millicores (String.mk ds) = .ok ((natOfDigitsL ds : ℤ) * 1000) := by
  refine ⟨by decide, by decide, by decide, ?_, ?_, ?_⟩
  · have he : parse_cpu_to_millicores (String.mk (ds ++ ['m'])) =
        cpuParse (trimL (ds ++ ['m'])) := rfl
    rw [he, digits_noSpace_append ds 'm' h2 (by decide)]
    exact cpuParse_digits_m ds h1 h2
  · have he : parse_cpu_to_millicores (String.mk (ds ++ ['n'])) =
        cpuParse (trimL (ds ++ ['n'])) := rfl
    rw [he, digits_noSpace_append ds 'n' h2 (by decide)]
    exact cpuParse_digits_n ds h1 h2
  · have he : parse_cpu_to_millicores (String.mk ds) = cpuParse (trimL ds) := rfl
    rw [he, trimL_of_noSpace ds (fun c hc => (digit_char_facts c (h2 c hc)).2.1)]
    exact cpuParse_digits_plain ds h1 h2

/-- C8, witness. -/
theorem c8_witness :
    parse_cpu_to_millicores "2m" = .ok 2 ∧
    parse_cpu_to_millicores "2n" = .ok 0 ∧
    parse_cpu_to_millicores "2" = .ok 2000 := by
  have h := c8_cpu_parser_reference ("2".data) (by decide) (by decide)
  refine ⟨?_, ?_, h.2.2.1⟩
  · have h4 := h.2.2.2.1
    rw [show String.mk ("2".data ++ ['m']) = "2m" from by decide,
      show natOfDigitsL ("2".data) = 2 from by decide] at h4
    exact h4
  · have h5 := h.2.2.2.2.1
    rw [show String.mk ("2".data ++ ['n']) = "2n" from by decide,
      show (((natOfDigitsL ("2".data) : ℤ) * 1000).tdiv (10 ^ 9 : ℕ)) = 0 from by
        decide] at h5
    exact h5

/-- C9: when a node's parsed cpu or memory capacity is 0 (absent or
unparsable), row assembly substitutes 1 for the divisor, so the percentage
becomes `used * 100` instead of a division-by-zero error; the substituted
divisor is never zero. -/
theorem c9_zero_capacity_guard (name : String)
    (cpuUsed? cpuCap? memUsed? memCap? : Option Int) (disk? : Option ℚ)
    (labels : List (String × Option String)) :
    (cpuCap?.getD 0 = 0 →
      (buildRow name cpuUsed? cpuCap? memUsed? memCap? disk? labels).cpu_perc =
        some ((cpuUsed?.getD 0 : ℚ) * 100)) ∧
    (memCap?.getD 0 = 0 →
      (buildRow name cpuUsed? cpuCap? memUsed? memCap? disk? labels).mem_perc =
        some ((memUsed?.getD 0 : ℚ) * 100)) ∧
    (∀ x : Int, pyOrInt x 1 ≠ 0) := by
  refine ⟨?_, ?_, ?_⟩
  · intro h
    simp [buildRow, pyOrInt, h]
  · intro h
    simp [buildRow, pyOrInt, h]
  · intro x
    by_cases hx : x = 0 <;> simp [pyOrInt, hx]

/-- C9, witness. -/
theorem c9_witness :
    (buildRow "n1" (some 7) (some 0) (some 3) none (some 0) []).cpu_perc =
      some ((7 : ℚ) * 100) ∧
    (buildRow "n1" (some 7) (some 0) (some 3) none (some 0) []).mem_perc =
      some ((3 : ℚ) * 100) ∧
    pyOrInt 0 1 ≠ 0 := by
  have h := c9_zero_capacity_guard "n1" (some 7) (some 0) (some 3) none (some 0) []
  exact ⟨by simpa using h.1 rfl, by simpa using h.2.1 rfl, h.2.2 0⟩

/-- C10, counterexample: an item with an empty normalized form is not always
resolved to the `name` column — a requested label equal to the raw item
captures it first: with requested labels `["--"]` the item `"--"` resolves
as a label sort, not as `name`.  (And an all-punctuation item with an
interior newline, such as `"-\n-"`, is not resolved at all: the direction
regex fails and the call raises.) -/
theorem c10_counterexample :
    parse_order_by "--" ["--"] = .ok [("label", false, some "--")] ∧
    parse_order_by "--" ["--"] ≠ .ok [("name", false, none)] ∧
    parse_order_by "-\n-" [] = .error () := by
  decide

/-- C10 (amended): an order-by item whose column name normalizes to the
empty string is never dropped, provided the direction regex matches it at
all (an item with an interior newline instead makes the program raise
`AttributeError`) and no requested label matches it (by empty normalization
or raw equality): then the prefix fallback resolves it to the first alias in
the table — the `name` column — with the item's parsed direction. -/
theorem c10_amended_norm_empty_resolution (labels : List String)
    (item col0 : List Char) (rev : Bool)
    (hsplit : splitDirL item = some (col0, rev))
    (hnorm : normL (trimL col0) = [])
    (hlab : ∀ lk ∈ labels, ¬(normL lk.data = [] ∨ lk.data = trimL col0)) :
    resolveItem labels item = .ok (some ("name", rev, none)) := by
  have h1 : dictGet builtinColMap (String.mk ([] : List Char)) = none := by decide
  have h3 : builtinColMap.find? (fun p =>
      startsWithL p.1.data ([] : List Char) || startsWithL ([] : List Char) p.1.data) =
      some ("name", "name") := by decide
  have h2 : (labels.find? (fun lk =>
      decide (normL lk.data = ([] : List Char)) ||
      decide (lk.data = trimL col0))) = none := by
    rw [List.find?_eq_none]
    intro lk hlk
    have := hlab lk hlk
    simp only [Bool.or_eq_true, decide_eq_true_eq]
    tauto
  rw [resolveItem, hsplit]
  simp only [hnorm, h1, h2, h3]

/-- C10, witness. -/
theorem c10_witness :
    resolveItem [] ("--:desc".data) = .ok (some ("name", true, none)) :=
  c10_amended_norm_empty_resolution [] ("--:desc".data) ("--".data) true
    (by decide) (by decide) (by simp)
